import Mathlib

/-!
# Verification of the SkillSync ingestion/classification/scoring core

Shallow embedding of the AI service (skill normalization, profile skill
extraction, issue classification, match scoring) and the issue-aggregation
job of the SkillSync repository, together with proofs about the embedded
definitions. JavaScript numbers are modelled as `ℚ`, strings as `String`,
nullable / possibly-undefined values as `Option`, and JS `Map`s as
association lists in insertion order.
-/

namespace SkillSync

/-! ## Skill Normalizer (`normalizeSkillName`, `aiService.js`) -/

/-- Model of `toLowerCase()`, character-wise (ASCII case mapping, which is
all the fixed vocabularies of this code base exercise). -/
def strToLower (s : String) : String :=
  String.mk (s.data.map Char.toLower)

/-- JS whitespace for the purposes of `trim()` (ASCII fragment). -/
def isTrimChar (c : Char) : Bool :=
  c = ' ' || c = '\t' || c = '\n' || c = '\r'

/-- Model of `trim()`: drop leading and trailing whitespace. -/
def strTrim (s : String) : String :=
  String.mk (((s.data.dropWhile isTrimChar).reverse.dropWhile isTrimChar).reverse)

/-- Characters kept by the `replace(/[^a-z0-9\+\-\.]/g, '')` step. -/
def isSkillChar (c : Char) : Bool :=
  (('a' ≤ c && c ≤ 'z') || ('0' ≤ c && c ≤ '9') || c = '+' || c = '-' || c = '.')

/-- Strip every character outside `[a-z0-9+\-.]` from a string. -/
def stripSkillChars (s : String) : String :=
  String.mk (s.data.filter isSkillChar)

/-- The fixed alias table of `normalizeSkillName`. -/
def skillAliases : List (String × String) :=
  [("js", "javascript"), ("ts", "typescript"), ("py", "python"),
   ("nodejs", "node.js"), ("reactjs", "react"), ("vuejs", "vue"),
   ("angularjs", "angular"), ("csharp", "c#"), ("cpp", "c++"),
   ("py3", "python"), ("jupyternotebook", "jupyter"),
   ("postgres", "postgresql"), ("mongo", "mongodb"), ("tf", "tensorflow"),
   ("pt", "pytorch"), ("ghactions", "github actions"),
   ("ci", "continuous integration"), ("cd", "continuous deployment")]

/-- Alias lookup, `aliases[normalized] || normalized`, falling back to the
input itself (every alias value is a non-empty string, so the JS `||` only
fires on a missed lookup). -/
def aliasApply (s : String) : String :=
  match skillAliases.find? (fun p => p.1 = s) with
  | some p => p.2
  | none => s

/-- Model of `normalizeSkillName(name)`. The argument is `Option String`: `none`
models a missing (`undefined`/`null`) or non-string argument, which the
`typeof` guard maps to `null`; the empty string is also falsy in JS and is
mapped to `null` by the same guard. Any other string is lower-cased,
trimmed, stripped, and run through the alias table. -/
def normalizeSkillName : Option String → Option String
  | none => none
  | some s =>
      if s = "" then none
      else some (aliasApply (stripSkillChars (strTrim (strToLower s))))

/-! ## Skill merge (`addSkill`, `aiService.js`) -/

/-- A skill record as stored in the extraction `Map`. -/
structure Skill where
  name : String
  level : String
  confidence : ℚ
  source : String
deriving DecidableEq, Repr

/-- A JS `Map` from normalized names to skills, in insertion order. -/
def SkillMap := List (String × Skill)

/-- JS `Map.get`. -/
def mapGet (m : SkillMap) (k : String) : Option Skill :=
  match m.find? (fun p => p.1 = k) with
  | some p => some p.2
  | none => none

/-- JS `Map.set`: replace in place when the key exists, append otherwise. -/
def mapSet (m : SkillMap) (k : String) (v : Skill) : SkillMap :=
  match m with
  | [] => [(k, v)]
  | (k', v') :: rest =>
      if k' = k then (k, v) :: rest else (k', v') :: mapSet rest k v

/-- Index of a level in `['beginner', 'intermediate', 'advanced', 'expert']`,
with `-1` for a string outside the table, exactly as JS `indexOf`. -/
def levelIndex (l : String) : Int :=
  if l = "beginner" then 0
  else if l = "intermediate" then 1
  else if l = "advanced" then 2
  else if l = "expert" then 3
  else -1

/-- Model of `addSkill(skillsMap, name, level, confidence, source)`: normalize the
name (skipping falsy results), then either merge into the existing entry
(confidence becomes the mean, the level is replaced only when strictly
higher by `indexOf`) or insert a fresh entry. -/
def addSkill (m : SkillMap) (name : Option String) (level : String)
    (confidence : ℚ) (source : String) : SkillMap :=
  match normalizeSkillName name with
  | none => m
  | some normalizedName =>
      if normalizedName = "" then m
      else
        match mapGet m normalizedName with
        | some existing =>
            let newConfidence := (existing.confidence + confidence) / 2
            let newLevel :=
              if levelIndex existing.level < levelIndex level then level
              else existing.level
            mapSet m normalizedName
              { existing with confidence := newConfidence, level := newLevel }
        | none =>
            mapSet m normalizedName ⟨normalizedName, level, confidence, source⟩

/-! ## Match Scorer (`calculateMatchScore` and helpers, `aiService.js`) -/

/-- One entry of `user.languages`: a technology-usage record. Only the
fields the scorer reads are modelled. -/
structure UserLang where
  name : String
  percentage : ℚ
deriving DecidableEq, Repr

/-- One entry of `user.skills`; the scorer only reads the name. -/
structure UserSkill where
  name : String
deriving DecidableEq, Repr

/-- The slice of a user document the scorer reads. `none` models a missing
(`undefined`) field; `difficultLevels` models `user.preferences?.difficultLevels`. -/
structure MatchUser where
  languages : Option (List UserLang)
  skills : Option (List UserSkill)
  difficultLevels : Option (List String)
deriving DecidableEq, Repr

/-- The slice of an issue document the scorer reads. `language` models
`issue.repository?.language` (with the JS-falsy empty string mapped to
`none`, as every guard in the scorer treats them alike); `createdAt` is a
millisecond timestamp. -/
structure MatchIssue where
  language : Option String
  requiredSkills : Option (List String)
  difficulty : Option String
  createdAt : Option ℚ
deriving DecidableEq, Repr

/-- Model of `calculateLanguageMatchScore(userLanguages, issueLanguage)`. -/
def calculateLanguageMatchScore (userLanguages : Option (List UserLang))
    (issueLanguage : Option String) : ℚ :=
  match userLanguages, issueLanguage with
  | some langs, some lang =>
      match langs.find? (fun x => strToLower x.name = strToLower lang) with
      | some matchingLang => min (matchingLang.percentage / 100) 1
      | none => 0
  | _, _ => 0

/-- Model of `calculateSkillMatchScore(userSkills, requiredSkills)`: the fraction of
required skills found (case-insensitively) among the user's skill names. -/
def calculateSkillMatchScore (userSkills : Option (List UserSkill))
    (requiredSkills : List String) : ℚ :=
  match userSkills with
  | none => 0
  | some skills =>
      let names := skills.map (fun s => strToLower s.name)
      let matchCount :=
        (requiredSkills.filter (fun r => names.contains (strToLower r))).length
      if 0 < requiredSkills.length then
        (matchCount : ℚ) / (requiredSkills.length : ℚ)
      else 0

/-- Model of `calculateDifficultyMatchScore(userLevels, issueDifficulty)`. -/
def calculateDifficultyMatchScore (userLevels : List String)
    (issueDifficulty : String) : ℚ :=
  if userLevels.contains issueDifficulty then 1 else 0

/-- Milliseconds per day, the divisor `1000 * 60 * 60 * 24`. -/
def msPerDay : ℚ := 1000 * 60 * 60 * 24

/-- Model of `calculateFreshnessScore(createdAt)`: linear decay over 30 days from
the evaluation instant `now` (`Date.now()`). -/
def calculateFreshnessScore (now : ℚ) (createdAt : Option ℚ) : ℚ :=
  match createdAt with
  | none => 0
  | some t => max 0 (1 - ((now - t) / msPerDay) / 30)

/-- Model of `calculateMatchScore(user, issue)`: accumulate `totalScore`/`maxScore`
over the applicable factors (language 0.4, skills 0.3, difficulty 0.2,
freshness 0.1 — the last unconditionally) and divide. Each `pᵢ` is the
(contribution, weight) pair a factor adds to the two accumulators. -/
def calculateMatchScore (now : ℚ) (user : MatchUser) (issue : MatchIssue) : ℚ :=
  let p1 : ℚ × ℚ :=
    match issue.language with
    | some lang =>
        ((calculateLanguageMatchScore user.languages (some lang)) * (2/5), 2/5)
    | none => (0, 0)
  let p2 : ℚ × ℚ :=
    match issue.requiredSkills with
    | some rs =>
        if 0 < rs.length then
          ((calculateSkillMatchScore user.skills rs) * (3/10), 3/10)
        else (0, 0)
    | none => (0, 0)
  let p3 : ℚ × ℚ :=
    match issue.difficulty with
    | some d =>
        ((calculateDifficultyMatchScore (user.difficultLevels.getD []) d) * (1/5),
         1/5)
    | none => (0, 0)
  let freshnessScore := calculateFreshnessScore now issue.createdAt
  let totalScore := p1.1 + p2.1 + p3.1 + freshnessScore * (1/10)
  let maxScore := p1.2 + p2.2 + p3.2 + 1/10
  if 0 < maxScore then totalScore / maxScore else 0

/-- The weight the language factor contributes to the denominator. -/
def langWeight (issue : MatchIssue) : ℚ :=
  match issue.language with
  | some _ => 2/5
  | none => 0

/-- The weight the skill factor contributes to the denominator. -/
def skillWeight (issue : MatchIssue) : ℚ :=
  match issue.requiredSkills with
  | some rs => if 0 < rs.length then 3/10 else 0
  | none => 0

/-- The weight the difficulty factor contributes to the denominator. -/
def diffWeight (issue : MatchIssue) : ℚ :=
  match issue.difficulty with
  | some _ => 1/5
  | none => 0

/-- The normalizing denominator: the sum of the weights of the applicable
factors (freshness always applies). -/
def applicableWeight (issue : MatchIssue) : ℚ :=
  langWeight issue + skillWeight issue + diffWeight issue + 1/10

/-! ## Item Classifier (`determineDifficulty`, `extractRequiredSkills`,
`aiService.js`) -/

/-- Test whether `pat` is a leading segment of `hay`. -/
def charsLead : List Char → List Char → Bool
  | [], _ => true
  | _ :: _, [] => false
  | p :: ps, h :: hs => p = h && charsLead ps hs

/-- Test whether `pat` occurs contiguously inside `hay`. -/
def charsIncl (pat : List Char) : List Char → Bool
  | [] => charsLead pat []
  | c :: t => charsLead pat (c :: t) || charsIncl pat t

/-- JS `hay.includes(pat)`: substring containment. -/
def textIncludes (hay pat : String) : Bool :=
  charsIncl pat.data hay.data

/-- Model of `determineDifficulty(text, labels)`: label overrides first
(`good first issue`/`good-first-issue` ⇒ `beginner`, `help wanted` ⇒
`intermediate`), then text keywords on the lower-cased text, default
`intermediate`. -/
def determineDifficulty (text : String) (labels : List String) : String :=
  if labels.contains ("good first issue") || labels.contains ("good-first-issue") then
    "beginner"
  else if labels.contains ("help wanted") then
    "intermediate"
  else
    let lowercaseText := strToLower text
    if textIncludes lowercaseText ("easy") || textIncludes lowercaseText ("simple")
        || textIncludes lowercaseText ("beginner") then
      "beginner"
    else if textIncludes lowercaseText ("advanced")
        || textIncludes lowercaseText ("complex") then
      "advanced"
    else
      "intermediate"

/-- The `enum` of the `difficulty` field in the issue schema
(`models/Issue.js`). -/
def issueDifficultyValues : List String :=
  ["good-first-issue", "beginner", "intermediate", "advanced"]

/-- The fixed keyword table of `extractRequiredSkills`: each case-insensitive
regex alternation, as its list of literal alternatives, with the skill it
maps to. -/
def keywordSkillTable : List (List String × String) :=
  [(["react", "vue", "angular", "svelte"], "frontend"),
   (["node", "express", "django", "flask"], "backend"),
   (["mongodb", "mysql", "postgresql", "sqlite"], "database"),
   (["tensorflow", "pytorch", "scikit-learn", "keras"], "machine learning"),
   (["docker", "kubernetes", "aws", "azure", "gcp"], "cloud"),
   (["git", "github", "gitlab"], "version control"),
   (["scrum", "kanban", "agile"], "project management"),
   (["photoshop", "illustrator", "figma"], "design"),
   (["excel", "csv", "data analysis"], "data analysis")]

/-- JS `Set.add`: append if not already present (JS `Set` keeps insertion
order and drops duplicates). -/
def setAdd (l : List String) (x : String) : List String :=
  if l.contains x then l else l ++ [x]

/-- Model of `extractRequiredSkills(text, labels, repoLanguage)`. The `labels`
argument is the list the caller `analyzeIssueContent` builds:
`issue.labels.map(l => l.name.toLowerCase())`, i.e. plain strings. The
label loop then reads `label.name` — a property access on a string, which
is `undefined` in JS — so `normalizeSkillName` receives `undefined`
(modelled `none`) on every iteration. A case-insensitive regex
`test(text)` is the lower-cased-substring check against each literal
alternative. -/
def extractRequiredSkills (text : String) (labels : List String)
    (repoLanguage : Option String) : List String :=
  let lowerText := strToLower text
  let fromKeywords :=
    keywordSkillTable.foldl
      (fun acc p =>
        if p.1.any (fun k => textIncludes lowerText k) then setAdd acc p.2
        else acc)
      []
  let fromLabels :=
    labels.foldl
      (fun acc _label =>
        match normalizeSkillName none with
        | some normalizedLabel =>
            if normalizedLabel = "" then acc else setAdd acc normalizedLabel
        | none => acc)
      fromKeywords
  match repoLanguage with
  | some repoLang =>
      match normalizeSkillName (some repoLang) with
      | some langSkill =>
          if langSkill = "" then fromLabels else setAdd fromLabels langSkill
      | none => fromLabels
  | none => fromLabels

/-! ## Profile Skill Extractor: defaults and technology percentages
(`extractUserSkills`, `getDefaultSkillset`, `aiService.js`) -/

/-- One entry of the extractor's `languages` output. -/
structure LangUsage where
  name : String
  percentage : ℚ
  linesOfCode : ℚ
deriving DecidableEq, Repr

/-- The extractor's return shape `{ skills, languages }`. -/
structure Skillset where
  skills : List Skill
  languages : List LangUsage
deriving DecidableEq, Repr

/-- Model of `getDefaultSkillset()`: the fixed fallback returned by the `catch`
clause of `extractUserSkills`. -/
def getDefaultSkillset : Skillset :=
  { skills :=
      [⟨"javascript", "beginner", 1/2, "default"⟩,
       ⟨"html", "beginner", 1/2, "default"⟩,
       ⟨"css", "beginner", 1/2, "default"⟩,
       ⟨"git", "beginner", 1/2, "default"⟩],
    languages :=
      [⟨"JavaScript", 40, 0⟩, ⟨"HTML", 30, 0⟩, ⟨"CSS", 30, 0⟩] }

/-- The `try`/`catch` shell of `extractUserSkills`: the body's outcome is
either a computed skillset or a thrown error; the `catch` clause turns any
error into `getDefaultSkillset()`, so the caller always receives a value. -/
def extractUserSkills (body : Except String Skillset) : Skillset :=
  match body with
  | .ok result => result
  | .error _ => getDefaultSkillset

/-- One value of the extractor's per-language accumulator `Map`
(`{ name, repoCount, totalSize, linesOfCode }`). -/
structure LangData where
  name : String
  repoCount : Nat
  totalSize : ℚ
  linesOfCode : ℚ
deriving DecidableEq, Repr

/-- Model of `totalLanguageSize`: the `reduce` summing `totalSize` over the
accumulated languages. -/
def totalLanguageSize (languages : List LangData) : ℚ :=
  (languages.map (fun l => l.totalSize)).sum

/-- The `percentage` field of each final language:
`totalLanguageSize > 0 ? (lang.totalSize / totalLanguageSize) * 100 : 0`. -/
def languagePercentages (languages : List LangData) : List ℚ :=
  let total := totalLanguageSize languages
  languages.map
    (fun l => if 0 < total then l.totalSize / total * 100 else 0)

/-! ## Aggregation pipeline (`aggregateIssues`, `jobs/issueAggregator.js`)

The job is single-threaded JS with `await` points; its observable
scheduling behaviour is a sequence of two kinds of atomic transitions on
the aggregator's shared state: `begin` — an invocation of
`aggregateIssues` runs its guard (`if (this.isRunning) return;` then
`this.isRunning = true`) before its first `await`; `finish success` — a
begun cycle's retry loop ends (by `break` on success or by exhausting the
3 attempts) and `this.isRunning = false` executes. `clientCalls` and
`storeWrites` count the source-client calls and store writes the begun
cycle's body performs; a refused invocation performs none. -/

/-- The aggregator's observable state: the guard flag, the number of
cycles currently executing, and cumulative effect counters. -/
structure AggState where
  isRunning : Bool
  activeCycles : Nat
  clientCalls : Nat
  storeWrites : Nat
deriving DecidableEq, Repr

/-- The two transition kinds of an aggregation trace. -/
inductive AggEvent where
  | begin
  | finish (success : Bool)
deriving DecidableEq, Repr

/-- One transition. `begin` is refused (state unchanged, no calls, no
writes) while the flag is set; otherwise it sets the flag and the begun
cycle performs its external work. `finish` resets the flag
unconditionally, success or failure. -/
def aggStep (s : AggState) : AggEvent → AggState
  | .begin =>
      if s.isRunning then s
      else
        { isRunning := true, activeCycles := s.activeCycles + 1,
          clientCalls := s.clientCalls + 1, storeWrites := s.storeWrites + 1 }
  | .finish _ =>
      if s.activeCycles = 0 then s
      else { s with isRunning := false, activeCycles := s.activeCycles - 1 }

/-- The constructor state: `this.isRunning = false`, nothing active. -/
def aggInit : AggState :=
  { isRunning := false, activeCycles := 0, clientCalls := 0, storeWrites := 0 }

/-- Run a trace of events from the initial state. -/
def aggRun (events : List AggEvent) : AggState :=
  events.foldl aggStep aggInit

/-- The single-flight invariant: the flag is set exactly while one cycle
is active. -/
def aggInv (s : AggState) : Prop :=
  s.activeCycles = (if s.isRunning then 1 else 0)

/-- The language factor's score as a function of the whole inputs (0 when
the issue has no language). -/
def langFactor (u : MatchUser) (i : MatchIssue) : ℚ :=
  calculateLanguageMatchScore u.languages i.language

/-- The skill factor's score as a function of the whole inputs. -/
def skillFactor (u : MatchUser) (i : MatchIssue) : ℚ :=
  calculateSkillMatchScore u.skills (i.requiredSkills.getD [])

/-- The difficulty factor's score as a function of the whole inputs (0 when
the issue has no difficulty). -/
def diffFactor (u : MatchUser) (i : MatchIssue) : ℚ :=
  match i.difficulty with
  | some d => calculateDifficultyMatchScore (u.difficultLevels.getD []) d
  | none => 0

/-! ## Concrete records used to instantiate the theorems -/

/-- The end-to-end scenario's profile: technology-usage python at 80%, the
single skill python, no preferred difficulties. -/
def scenarioUser : MatchUser :=
  { languages := some [⟨"python", 80⟩],
    skills := some [⟨"python"⟩],
    difficultLevels := none }

/-- The end-to-end scenario's item, evaluated at instant 0:
`repository.language="python"`, `requiredSkills=["python"]`,
`difficulty="intermediate"`, `createdAt` equal to the evaluation time. -/
def scenarioIssue : MatchIssue :=
  { language := some ("python"),
    requiredSkills := some ["python"],
    difficulty := some ("intermediate"),
    createdAt := some 0 }

/-- A profile and item with every scorer input absent. -/
def emptyUser : MatchUser :=
  { languages := none, skills := none, difficultLevels := none }

/-- An item with every factor input absent, `createdAt` included. -/
def emptyIssue : MatchIssue :=
  { language := none, requiredSkills := none, difficulty := none,
    createdAt := none }

/-- A skills map holding one entry: python at advanced, confidence 0.9. -/
def mergeMapExample : SkillMap :=
  [("python", ⟨"python", "advanced", 9/10, "repository"⟩)]

/-- Two accumulated languages with sizes 50 and 150. -/
def sizedLangsExample : List LangData :=
  [⟨"python", 1, 50, 0⟩, ⟨"javascript", 1, 150, 0⟩]

/-! ## Theorems -/

/-- Every alias value of the table is a non-empty string. -/
lemma aliasApply_eq_empty {s : String} (h : aliasApply s = "") : s = "" := by
  unfold aliasApply at h
  cases hf : skillAliases.find? (fun p => p.1 = s) with
  | none => rw [hf] at h; exact h
  | some p =>
      rw [hf] at h
      have hmem := List.mem_of_find?_eq_some hf
      have hne : ∀ q ∈ skillAliases, q.2 ≠ "" := by decide
      exact absurd h (hne p hmem)

/-- C3. The Item Classifier's difficulty applies label overrides first: a
`good first issue` (or `good-first-issue`) label always yields `beginner`
regardless of the text; otherwise `help wanted` yields `intermediate`;
only then do the text keywords decide (`easy`/`simple`/`beginner` before
`advanced`/`complex`), with default `intermediate`. -/
theorem determineDifficulty_label_precedence (text : String) (labels : List String) :
    (("good first issue" ∈ labels ∨ "good-first-issue" ∈ labels) →
      determineDifficulty text labels = "beginner") ∧
    ("good first issue" ∉ labels → "good-first-issue" ∉ labels →
      "help wanted" ∈ labels →
      determineDifficulty text labels = "intermediate") ∧
    ("good first issue" ∉ labels → "good-first-issue" ∉ labels →
      "help wanted" ∉ labels →
      (textIncludes (strToLower text) ("easy") = true ∨
        textIncludes (strToLower text) ("simple") = true ∨
        textIncludes (strToLower text) ("beginner") = true) →
      determineDifficulty text labels = "beginner") ∧
    ("good first issue" ∉ labels → "good-first-issue" ∉ labels →
      "help wanted" ∉ labels →
      textIncludes (strToLower text) ("easy") = false →
      textIncludes (strToLower text) ("simple") = false →
      textIncludes (strToLower text) ("beginner") = false →
      (textIncludes (strToLower text) ("advanced") = true ∨
        textIncludes (strToLower text) ("complex") = true) →
      determineDifficulty text labels = "advanced") ∧
    ("good first issue" ∉ labels → "good-first-issue" ∉ labels →
      "help wanted" ∉ labels →
      textIncludes (strToLower text) ("easy") = false →
      textIncludes (strToLower text) ("simple") = false →
      textIncludes (strToLower text) ("beginner") = false →
      textIncludes (strToLower text) ("advanced") = false →
      textIncludes (strToLower text) ("complex") = false →
      determineDifficulty text labels = "intermediate") := by
  refine ⟨?_, ?_, ?_, ?_, ?_⟩
  · rintro (h | h) <;> simp [determineDifficulty, h]
  · intro h1 h2 h3; simp [determineDifficulty, h1, h2, h3]
  · rintro h1 h2 h3 (h | h | h) <;> simp [determineDifficulty, h1, h2, h3, h]
  · rintro h1 h2 h3 h4 h5 h6 (h | h) <;>
      simp [determineDifficulty, h1, h2, h3, h4, h5, h6, h]
  · intro h1 h2 h3 h4 h5 h6 h7 h8
    simp [determineDifficulty, h1, h2, h3, h4, h5, h6, h7, h8]

/-- Witness for C3: an item labeled `good first issue` whose body contains
`advanced` is still classified `beginner`. -/
theorem determineDifficulty_label_precedence_witness :
    determineDifficulty "requires advanced internals knowledge" ["good first issue"] =
      "beginner" :=
  (determineDifficulty_label_precedence
    "requires advanced internals knowledge" ["good first issue"]).1
    (Or.inl (by decide))

/-- C10, counterexample. The claim's premise that `expert` is an
admissible value of the stored difficulty field is false: the schema's
enum (`models/Issue.js`, the `difficulty` field) is exactly
`['good-first-issue', 'beginner', 'intermediate', 'advanced']` — it admits
`good-first-issue` but not `expert`. -/
theorem issueDifficulty_expert_not_admissible_cex :
    "expert" ∉ issueDifficultyValues ∧
    "good-first-issue" ∈ issueDifficultyValues := by
  decide

/-- C10, amended. The classifier's difficulty is always one of `beginner`,
`intermediate`, `advanced` — a value admitted by the schema's enum; it
never produces `good-first-issue`, even though the enum admits it, and
never produces `expert`, which the enum does not even admit. -/
theorem determineDifficulty_range (text : String) (labels : List String) :
    (determineDifficulty text labels = "beginner" ∨
      determineDifficulty text labels = "intermediate" ∨
      determineDifficulty text labels = "advanced") ∧
    determineDifficulty text labels ≠ "good-first-issue" ∧
    determineDifficulty text labels ≠ "expert" ∧
    determineDifficulty text labels ∈ issueDifficultyValues := by
  have h : determineDifficulty text labels = "beginner" ∨
      determineDifficulty text labels = "intermediate" ∨
      determineDifficulty text labels = "advanced" := by
    simp only [determineDifficulty]
    repeat' split
    all_goals simp
  refine ⟨h, ?_, ?_, ?_⟩
  · rcases h with h | h | h <;> rw [h] <;> decide
  · rcases h with h | h | h <;> rw [h] <;> decide
  · rcases h with h | h | h <;> rw [h] <;> decide

/-- C5, counterexample. The claim that the Skill Normalizer returns `null`
for every invalid input and never an empty string is false: the invalid
input `"!"` is non-empty, survives the falsy guard, has all of its
characters stripped, misses the alias table, and is returned as the empty
string rather than `null`. -/
theorem normalizeSkillName_empty_result_cex :
    normalizeSkillName (some ("!")) = some ("") ∧
    normalizeSkillName (some ("!")) ≠ none := by
  constructor
  · decide
  · decide

/-- C5, amended. The normalizer lower-cases, strips characters outside
`[a-z0-9+\-.]` and applies the alias table, so `normalize("JS") ==
normalize("js") == "javascript"`; it returns `null` exactly for a missing,
non-string or empty-string input (in particular `normalize("") == null`);
but for a non-empty string whose characters are all stripped it returns
the empty string (a falsy value its callers skip), not `null`. -/
theorem normalizeSkillName_contract :
    normalizeSkillName (some ("JS")) = some ("javascript") ∧
    normalizeSkillName (some ("js")) = some ("javascript") ∧
    normalizeSkillName (some ("")) = none ∧
    normalizeSkillName none = none ∧
    (∀ s : String, normalizeSkillName (some s) = none ↔ s = "") ∧
    (∀ s : String, s ≠ "" →
      normalizeSkillName (some s) =
        some (aliasApply (stripSkillChars (strTrim (strToLower s))))) ∧
    (∀ s : String, normalizeSkillName (some s) = some ("") →
      s ≠ "" ∧ stripSkillChars (strTrim (strToLower s)) = "") := by
  refine ⟨by decide, by decide, by decide, by decide, ?_, ?_, ?_⟩
  · intro s
    by_cases hs : s = "" <;> simp [normalizeSkillName, hs]
  · intro s hs
    simp [normalizeSkillName, hs]
  · intro s h
    by_cases hs : s = "" <;> simp [normalizeSkillName, hs] at h
    exact ⟨hs, aliasApply_eq_empty h⟩

/-- Witness for C5 (amended): lower-casing, stripping and alias lookup on
the non-empty input `"Py-3 !"`. -/
theorem normalizeSkillName_contract_witness :
    normalizeSkillName (some ("Py-3 !")) =
      some (aliasApply (stripSkillChars (strTrim (strToLower ("Py-3 !"))))) :=
  (normalizeSkillName_contract).2.2.2.2.2.1 "Py-3 !" (by decide)

/-- Any fold whose step ignores the element and returns the accumulator is
the identity. -/
lemma foldl_skip {α β : Type} (f : α → β → α) (hf : ∀ a b, f a b = a) :
    ∀ (l : List β) (a : α), l.foldl f a = a := by
  intro l
  induction l with
  | nil => intro a; rfl
  | cons x xs ih => intro a; rw [List.foldl_cons, hf, ih]

/-- C7 (code bug). In `extractRequiredSkills` the label loop reads
`label.name` although its caller passes lower-cased label-name strings, so
the normalizer always receives `undefined` and the labels never contribute
a skill: the result is independent of the labels, and for an item with no
keyword match, label `python` and no repository language the result is
empty instead of containing `python`. -/
theorem extractRequiredSkills_drops_labels :
    (∀ (text : String) (labels : List String) (repoLanguage : Option String),
      extractRequiredSkills text labels repoLanguage =
        extractRequiredSkills text [] repoLanguage) ∧
    extractRequiredSkills "update the docs" ["python"] none = [] ∧
    ("python" ∉ extractRequiredSkills "update the docs" ["python"] none) := by
  refine ⟨?_, by decide, by decide⟩
  intro text labels repoLanguage
  have hfold : ∀ (l : List String) (acc : List String),
      l.foldl
        (fun acc _label =>
          match normalizeSkillName none with
          | some normalizedLabel =>
              if normalizedLabel = "" then acc else setAdd acc normalizedLabel
          | none => acc)
        acc = acc :=
    foldl_skip _ (fun _ _ => rfl)
  simp only [extractRequiredSkills, hfold]

/-- C8. The Profile Skill Extractor's `try`/`catch` shell never propagates
an error: an `ok` body outcome is returned as is, and every thrown error is
replaced by the fixed default skillset (javascript, html, css, git at
beginner/0.5). -/
theorem extractUserSkills_total_recovery :
    (∀ e : String, extractUserSkills (Except.error e) = getDefaultSkillset) ∧
    (∀ r : Skillset, extractUserSkills (Except.ok r) = r) ∧
    getDefaultSkillset.skills =
      [⟨"javascript", "beginner", 1/2, "default"⟩,
       ⟨"html", "beginner", 1/2, "default"⟩,
       ⟨"css", "beginner", 1/2, "default"⟩,
       ⟨"git", "beginner", 1/2, "default"⟩] :=
  ⟨fun _ => rfl, fun _ => rfl, rfl⟩

/-- C9. Each technology's percentage is its accumulated size over the
total accumulated size times 100 (0 when the total is 0), so the
percentages sum to exactly 100 whenever the total size is positive and to
0 when no sized technologies exist. -/
theorem languagePercentages_sum (languages : List LangData) :
    (languagePercentages languages =
      languages.map
        (fun l =>
          if 0 < totalLanguageSize languages then
            l.totalSize / totalLanguageSize languages * 100
          else 0)) ∧
    (0 < totalLanguageSize languages →
      (languagePercentages languages).sum = 100) ∧
    (totalLanguageSize languages = 0 →
      (languagePercentages languages).sum = 0) := by
  refine ⟨rfl, ?_, ?_⟩
  · intro hT
    have hT0 : totalLanguageSize languages ≠ 0 := ne_of_gt hT
    have hmap : languagePercentages languages =
        languages.map
          (fun l => l.totalSize * (100 / totalLanguageSize languages)) := by
      unfold languagePercentages
      refine List.map_congr_left (fun l _ => ?_)
      rw [if_pos hT]
      field_simp
    rw [hmap, List.sum_map_mul_right]
    have : (languages.map (fun l => l.totalSize)).sum = totalLanguageSize languages := rfl
    rw [this]
    field_simp
  · intro hT
    unfold languagePercentages
    rw [hT]
    simp

/-- Witness for C9: sizes 50 and 150 give percentages summing to 100. -/
theorem languagePercentages_sum_witness :
    (languagePercentages sizedLangsExample).sum = 100 :=
  (languagePercentages_sum sizedLangsExample).2.1
    (by norm_num [totalLanguageSize, sizedLangsExample])

/-- One step of the aggregator preserves the single-flight invariant. -/
lemma aggInv_step {s : AggState} (hs : aggInv s) (e : AggEvent) :
    aggInv (aggStep s e) := by
  cases e with
  | begin =>
      by_cases hr : s.isRunning
      · simpa [aggStep, hr] using hs
      · have hr' : s.isRunning = false := by simpa using hr
        simp only [aggInv, hr', if_false] at hs
        simp [aggStep, hr', aggInv, hs]
  | finish b =>
      by_cases h0 : s.activeCycles = 0
      · simpa [aggStep, h0] using hs
      · simp only [aggStep, if_neg h0]
        simp only [aggInv] at hs ⊢
        rcases hb : s.isRunning with _ | _
        · rw [hb] at hs; simp at hs; exact absurd hs h0
        · rw [hb] at hs; simp at hs ⊢; omega

/-- The invariant holds after any prefix of a trace. -/
lemma aggInv_foldl :
    ∀ (events : List AggEvent) (s : AggState), aggInv s → aggInv (events.foldl aggStep s) := by
  intro events
  induction events with
  | nil => intro s hs; exact hs
  | cons e es ih => intro s hs; exact ih _ (aggInv_step hs e)

/-- C4. The aggregation pipeline is single-flight: a trigger that arrives
while the flag is set is a no-op (state, client-call and store-write
counters unchanged); the flag is cleared unconditionally when an active
cycle ends, success or failure; and along every trace from the initial
state at most one cycle is active, the flag being set exactly while one
is. -/
theorem aggregateIssues_single_flight :
    (∀ s : AggState, s.isRunning = true → aggStep s AggEvent.begin = s) ∧
    (∀ (s : AggState) (success : Bool), 0 < s.activeCycles →
      (aggStep s (AggEvent.finish success)).isRunning = false) ∧
    (∀ events : List AggEvent, aggInv (aggRun events)) ∧
    (∀ events : List AggEvent, (aggRun events).activeCycles ≤ 1) := by
  refine ⟨?_, ?_, ?_, ?_⟩
  · intro s hr; simp [aggStep, hr]
  · intro s success h0
    simp [aggStep, Nat.pos_iff_ne_zero.mp h0]
  · intro events
    exact aggInv_foldl events aggInit (by simp [aggInv, aggInit])
  · intro events
    have h := aggInv_foldl events aggInit (by simp [aggInv, aggInit])
    simp only [aggInv] at h
    rw [show aggRun events = events.foldl aggStep aggInit from rfl, h]
    split <;> omega

/-- Witness for C4: a refused re-trigger leaves the state (counters
included) unchanged; an ending cycle clears the flag even on failure; and
a trace with a refused second trigger keeps at most one active cycle. -/
theorem aggregateIssues_single_flight_witness :
    aggStep ⟨true, 1, 4, 2⟩ AggEvent.begin = ⟨true, 1, 4, 2⟩ ∧
    (aggStep ⟨true, 1, 4, 2⟩ (AggEvent.finish false)).isRunning = false ∧
    aggInv (aggRun [AggEvent.begin, AggEvent.begin, AggEvent.finish false]) ∧
    (aggRun [AggEvent.begin, AggEvent.begin, AggEvent.finish false]).activeCycles ≤ 1 :=
  ⟨(aggregateIssues_single_flight).1 ⟨true, 1, 4, 2⟩ rfl,
   (aggregateIssues_single_flight).2.1 ⟨true, 1, 4, 2⟩ false (by decide),
   (aggregateIssues_single_flight).2.2.1 [AggEvent.begin, AggEvent.begin, AggEvent.finish false],
   (aggregateIssues_single_flight).2.2.2 [AggEvent.begin, AggEvent.begin, AggEvent.finish false]⟩

/-- Looking up the key just written by `mapSet` yields the written value. -/
lemma mapGet_mapSet (m : SkillMap) (k : String) (v : Skill) :
    mapGet (mapSet m k v) k = some v := by
  induction m with
  | nil => simp [mapSet, mapGet, List.find?]
  | cons p rest ih =>
      by_cases hk : p.1 = k
      · simp [mapSet, hk, mapGet, List.find?]
      · obtain ⟨k', v'⟩ := p
        simp only at hk
        simp only [mapSet, if_neg hk]
        simp only [mapGet] at ih ⊢
        rw [List.find?_cons_of_neg]
        · exact ih
        · simp [hk]

/-- C6. Merging a later observation of an already-present normalized name
sets the confidence to the arithmetic mean of the old and new confidence
and the tier to the higher of the two under the `indexOf` ordering
(novice/beginner < intermediate < advanced < expert); in particular the
existing tier never decreases. -/
theorem addSkill_merge (m : SkillMap) (raw : String) (lvl : String)
    (conf : ℚ) (src : String) (n : String) (existing : Skill)
    (hn : normalizeSkillName (some raw) = some n) (hne : n ≠ "")
    (hex : mapGet m n = some existing) :
    ∃ s' : Skill,
      mapGet (addSkill m (some raw) lvl conf src) n = some s' ∧
      s'.confidence = (existing.confidence + conf) / 2 ∧
      levelIndex s'.level = max (levelIndex existing.level) (levelIndex lvl) ∧
      levelIndex existing.level ≤ levelIndex s'.level ∧
      (s'.level = existing.level ∨ s'.level = lvl) := by
  have hstep : addSkill m (some raw) lvl conf src =
      mapSet m n
        { existing with
          confidence := (existing.confidence + conf) / 2,
          level :=
            if levelIndex existing.level < levelIndex lvl then lvl
            else existing.level } := by
    unfold addSkill
    rw [hn]
    simp only [if_neg hne, hex]
  refine ⟨{ existing with
      confidence := (existing.confidence + conf) / 2,
      level :=
        if levelIndex existing.level < levelIndex lvl then lvl
        else existing.level },
    ?_, rfl, ?_, ?_, ?_⟩
  · rw [hstep]; exact mapGet_mapSet m n _
  · by_cases hlt : levelIndex existing.level < levelIndex lvl
    · simp only [if_pos hlt]; exact (max_eq_right hlt.le).symm
    · simp only [if_neg hlt]; exact (max_eq_left (not_lt.mp hlt)).symm
  · by_cases hlt : levelIndex existing.level < levelIndex lvl
    · simp only [if_pos hlt]; exact hlt.le
    · simp only [if_neg hlt]; exact le_refl _
  · by_cases hlt : levelIndex existing.level < levelIndex lvl
    · simp only [if_pos hlt]; exact Or.inr trivial
    · simp only [if_neg hlt]; exact Or.inl trivial

/-- Witness for C6: merging a beginner observation at confidence 0.1 into
an existing advanced python skill at confidence 0.9 keeps the advanced
tier and averages the confidences. -/
theorem addSkill_merge_witness :
    ∃ s' : Skill,
      mapGet (addSkill mergeMapExample (some ("Python")) "beginner" (1/10)
          "contribution") "python" = some s' ∧
      s'.confidence = (9/10 + 1/10) / 2 ∧
      levelIndex s'.level = max (levelIndex "advanced") (levelIndex "beginner") ∧
      levelIndex "advanced" ≤ levelIndex s'.level ∧
      (s'.level = "advanced" ∨ s'.level = "beginner") :=
  addSkill_merge mergeMapExample "Python" "beginner" (1/10) "contribution"
    "python" ⟨"python", "advanced", 9/10, "repository"⟩
    (by decide) (by decide) rfl

/-- C2, counterexample. On the end-to-end scenario (python profile at 80%
usage, matching skill, no preferred difficulties, fresh item) the score is
not 0.62: the claimed formula `(0.8*0.4 + 1.0*0.3 + 0*0.2 + 1.0*0.1)/1.0`
evaluates to 0.72, and so does the code. -/
theorem calculateMatchScore_scenario_cex :
    calculateMatchScore 0 scenarioUser scenarioIssue ≠ 31/50 := by
  norm_num [calculateMatchScore, calculateLanguageMatchScore,
    calculateSkillMatchScore, calculateDifficultyMatchScore,
    calculateFreshnessScore, msPerDay, scenarioUser, scenarioIssue,
    List.find?, List.filter, strToLower, min_def, max_def]

/-- C2, amended. On the end-to-end scenario the factors are language 0.8,
skill 1.0, difficulty 0, freshness 1.0, and the score is exactly
`(0.8*0.4 + 1.0*0.3 + 0*0.2 + 1.0*0.1)/1.0 = 0.72`. -/
theorem calculateMatchScore_scenario :
    calculateLanguageMatchScore scenarioUser.languages scenarioIssue.language = 4/5 ∧
    calculateSkillMatchScore scenarioUser.skills ["python"] = 1 ∧
    calculateDifficultyMatchScore (scenarioUser.difficultLevels.getD []) "intermediate" = 0 ∧
    calculateFreshnessScore 0 scenarioIssue.createdAt = 1 ∧
    calculateMatchScore 0 scenarioUser scenarioIssue =
      (4/5 * (2/5) + 1 * (3/10) + 0 * (1/5) + 1 * (1/10)) / 1 ∧
    calculateMatchScore 0 scenarioUser scenarioIssue = 18/25 := by
  refine ⟨?_, ?_, ?_, ?_, ?_, ?_⟩ <;>
    norm_num [calculateMatchScore, calculateLanguageMatchScore,
      calculateSkillMatchScore, calculateDifficultyMatchScore,
      calculateFreshnessScore, msPerDay, scenarioUser, scenarioIssue,
      List.find?, List.filter, strToLower, min_def, max_def]

/-- The language factor is non-negative when every profile percentage is. -/
lemma langFactor_nonneg (u : MatchUser) (i : MatchIssue)
    (hperc : ∀ L, u.languages = some L → ∀ x ∈ L, 0 ≤ x.percentage) :
    0 ≤ langFactor u i := by
  unfold langFactor calculateLanguageMatchScore
  rcases hu : u.languages with _ | L
  · rcases i.language with _ | l <;> simp
  · rcases i.language with _ | l
    · simp
    · cases hf : L.find? (fun x => strToLower x.name = strToLower l) with
      | none => simp [hf]
      | some x =>
          simp only [hf]
          have hx : 0 ≤ x.percentage :=
            hperc L hu x (List.mem_of_find?_eq_some hf)
          exact le_min (div_nonneg hx (by norm_num)) (by norm_num)

/-- The language factor never exceeds 1. -/
lemma langFactor_le_one (u : MatchUser) (i : MatchIssue) :
    langFactor u i ≤ 1 := by
  unfold langFactor calculateLanguageMatchScore
  rcases u.languages with _ | L
  · rcases i.language with _ | l <;> norm_num
  · rcases i.language with _ | l
    · norm_num
    · cases hf : L.find? (fun x => strToLower x.name = strToLower l) with
      | none => simp [hf]
      | some x => simp only [hf]; exact min_le_right _ _

/-- The skill factor is non-negative. -/
lemma skillFactor_nonneg (u : MatchUser) (i : MatchIssue) :
    0 ≤ skillFactor u i := by
  unfold skillFactor calculateSkillMatchScore
  rcases u.skills with _ | sk
  · simp
  · simp only
    split
    · positivity
    · exact le_refl 0

/-- The skill factor never exceeds 1. -/
lemma skillFactor_le_one (u : MatchUser) (i : MatchIssue) :
    skillFactor u i ≤ 1 := by
  unfold skillFactor calculateSkillMatchScore
  rcases u.skills with _ | sk
  · norm_num
  · simp only
    split
    · rename_i hlen
      rw [div_le_one (by exact_mod_cast hlen)]
      exact_mod_cast List.length_filter_le _ _
    · norm_num

/-- The difficulty factor is 0 or 1, hence within bounds. -/
lemma diffFactor_bounds (u : MatchUser) (i : MatchIssue) :
    0 ≤ diffFactor u i ∧ diffFactor u i ≤ 1 := by
  unfold diffFactor calculateDifficultyMatchScore
  cases hd : i.difficulty with
  | none => norm_num
  | some d =>
      dsimp only
      split_ifs <;> norm_num

/-- Freshness is never negative. -/
lemma freshness_nonneg (now : ℚ) (c : Option ℚ) :
    0 ≤ calculateFreshnessScore now c := by
  unfold calculateFreshnessScore
  rcases c with _ | t
  · norm_num
  · exact le_max_left 0 _

/-- Freshness never exceeds 1 when the item was not created in the
future. -/
lemma freshness_le_one (now : ℚ) (c : Option ℚ)
    (hage : ∀ t, c = some t → t ≤ now) :
    calculateFreshnessScore now c ≤ 1 := by
  unfold calculateFreshnessScore
  rcases c with _ | t
  · norm_num
  · have ht : t ≤ now := hage t rfl
    have hdiv : 0 ≤ ((now - t) / msPerDay) / 30 :=
      div_nonneg (div_nonneg (by linarith) (by norm_num [msPerDay])) (by norm_num)
    exact max_le (by norm_num) (by linarith)

/-- Every applicable weight is non-negative and the denominator is at
least the freshness weight. -/
lemma applicableWeight_pos (i : MatchIssue) :
    0 ≤ langWeight i ∧ 0 ≤ skillWeight i ∧ 0 ≤ diffWeight i ∧
      0 < applicableWeight i := by
  have h1 : 0 ≤ langWeight i := by
    unfold langWeight; rcases i.language with _ | l <;> norm_num
  have h2 : 0 ≤ skillWeight i := by
    unfold skillWeight
    rcases i.requiredSkills with _ | rs
    · norm_num
    · simp only; split <;> norm_num
  have h3 : 0 ≤ diffWeight i := by
    unfold diffWeight; rcases i.difficulty with _ | d <;> norm_num
  refine ⟨h1, h2, h3, ?_⟩
  unfold applicableWeight
  linarith

/-- The scorer in closed form: weighted factor sum over the sum of
applicable weights. -/
lemma calculateMatchScore_eq (now : ℚ) (u : MatchUser) (i : MatchIssue) :
    calculateMatchScore now u i =
      (langFactor u i * langWeight i + skillFactor u i * skillWeight i +
        diffFactor u i * diffWeight i +
        calculateFreshnessScore now i.createdAt * (1/10)) /
      applicableWeight i := by
  obtain ⟨lang, rs, diff, created⟩ := i
  rcases lang with _ | l <;> rcases rs with _ | rs' <;> rcases diff with _ | d <;>
    simp only [calculateMatchScore, langFactor, skillFactor, diffFactor,
      langWeight, skillWeight, diffWeight, applicableWeight,
      Option.getD_none, Option.getD_some] <;>
    split_ifs <;>
    (try ring) <;>
    (rename_i hW; norm_num at hW)

/-- C1. For valid inputs (profile percentages non-negative, item not
created in the future) the score lies in [0,1]; the score is a weighted
sum divided by the sum of the applicable weights only — a factor whose
input is absent contributes neither score nor weight; an item to which
only the freshness factor applies scores exactly the freshness value; and
when additionally `createdAt` is absent the score is 0. -/
theorem calculateMatchScore_bounds (now : ℚ) (u : MatchUser) (i : MatchIssue)
    (hperc : ∀ L, u.languages = some L → ∀ x ∈ L, 0 ≤ x.percentage)
    (hage : ∀ t, i.createdAt = some t → t ≤ now) :
    (0 ≤ calculateMatchScore now u i ∧ calculateMatchScore now u i ≤ 1) ∧
    (∃ t : ℚ, 0 ≤ t ∧ t ≤ applicableWeight i ∧
      calculateMatchScore now u i = t / applicableWeight i) ∧
    (i.language = none → i.requiredSkills.getD [] = [] → i.difficulty = none →
      calculateMatchScore now u i = calculateFreshnessScore now i.createdAt) ∧
    (i.language = none → i.requiredSkills.getD [] = [] → i.difficulty = none →
      i.createdAt = none → calculateMatchScore now u i = 0) := by
  obtain ⟨hw1, hw2, hw3, hwpos⟩ := applicableWeight_pos i
  have hL0 := langFactor_nonneg u i hperc
  have hL1 := langFactor_le_one u i
  have hS0 := skillFactor_nonneg u i
  have hS1 := skillFactor_le_one u i
  obtain ⟨hD0, hD1⟩ := diffFactor_bounds u i
  have hF0 := freshness_nonneg now i.createdAt
  have hF1 := freshness_le_one now i.createdAt hage
  have hEq := calculateMatchScore_eq now u i
  have hTnn : 0 ≤ langFactor u i * langWeight i +
      skillFactor u i * skillWeight i + diffFactor u i * diffWeight i +
      calculateFreshnessScore now i.createdAt * (1/10) :=
    add_nonneg
      (add_nonneg (add_nonneg (mul_nonneg hL0 hw1) (mul_nonneg hS0 hw2))
        (mul_nonneg hD0 hw3))
      (mul_nonneg hF0 (by norm_num))
  have hTle : langFactor u i * langWeight i +
      skillFactor u i * skillWeight i + diffFactor u i * diffWeight i +
      calculateFreshnessScore now i.createdAt * (1/10) ≤
      applicableWeight i := by
    have h1 : langFactor u i * langWeight i ≤ langWeight i :=
      mul_le_of_le_one_left hw1 hL1
    have h2 : skillFactor u i * skillWeight i ≤ skillWeight i :=
      mul_le_of_le_one_left hw2 hS1
    have h3 : diffFactor u i * diffWeight i ≤ diffWeight i :=
      mul_le_of_le_one_left hw3 hD1
    have h4 : calculateFreshnessScore now i.createdAt * (1/10) ≤ 1/10 :=
      mul_le_of_le_one_left (by norm_num) hF1
    unfold applicableWeight
    linarith
  have key : i.language = none → i.requiredSkills.getD [] = [] →
      i.difficulty = none →
      calculateMatchScore now u i = calculateFreshnessScore now i.createdAt := by
    intro h1 h2 h3
    have hlw : langWeight i = 0 := by unfold langWeight; rw [h1]
    have hsw : skillWeight i = 0 := by
      unfold skillWeight
      rcases hr : i.requiredSkills with _ | rs
      · rfl
      · rw [hr] at h2
        simp only [Option.getD_some] at h2
        simp [h2]
    have hdw : diffWeight i = 0 := by unfold diffWeight; rw [h3]
    have hA : applicableWeight i = 1/10 := by
      unfold applicableWeight
      rw [hlw, hsw, hdw]
      norm_num
    rw [hEq, hlw, hsw, hdw, hA]
    ring
  refine ⟨⟨?_, ?_⟩, ⟨_, hTnn, hTle, hEq⟩, key, ?_⟩
  · rw [hEq]; exact div_nonneg hTnn hwpos.le
  · rw [hEq, div_le_one hwpos]; exact hTle
  · intro h1 h2 h3 h4
    rw [key h1 h2 h3]
    unfold calculateFreshnessScore
    rw [h4]

/-- Witness for C1: a profile and item with every input absent score 0. -/
theorem calculateMatchScore_bounds_witness :
    calculateMatchScore 0 emptyUser emptyIssue = 0 :=
  (calculateMatchScore_bounds 0 emptyUser emptyIssue
    (fun L h => by simp [emptyUser] at h)
    (fun t h => by simp [emptyIssue] at h)).2.2.2 rfl rfl rfl rfl

end SkillSync
